import Mathlib

/-!
# Verification of the localPipeline execution engine

Shallow embedding of the LocalPipe CI runner (GitHub Actions, Azure DevOps
and CodeMagic runners plus the pipeline-type detector) and proofs of the
specification claims about it.

Conventions of the embedding:
* JavaScript objects spread with two maps become `envMerge a b` on
  `Env := String → Option String` (the later spread wins on key clashes).
* Child-process outcomes are abstracted by a `ProcOutcome` oracle passed to
  the runners: `exited 0` is a normal return, `exited (n+1)` is the thrown
  non-zero-exit error (with the `status` field set), `launchFailure` is the
  thrown could-not-start error (`status` undefined).  Both thrown cases
  land in the same catch block, exactly as in the source.
* JS truthiness of an optional string field is `strTruthy`: present and
  non-empty.
-/

namespace LocalPipeline

/-- Environment maps: JS string records viewed through lookups. -/
def Env := String → Option String

/-- JS spread of two objects: a binding in `b` overrides one in `a`. -/
def envMerge (a b : Env) : Env := fun k =>
  match b k with
  | some v => some v
  | none => a k

/-- Build an `Env` from a literal list of bindings; later entries override
earlier ones, like later keys of a JS object literal. -/
def envOfList : List (String × String) → Env
  | [], _ => none
  | (k', v) :: t, k =>
    match envOfList t k with
    | some w => some w
    | none => if k = k' then some v else none

/-- The empty environment. -/
def emptyEnv : Env := fun _ => none

/-- Outcome of running a script through the script executor: the child
exited with a code, or the shell/interpreter could not be started at all
(the thrown error then has no exit status). -/
inductive ProcOutcome where
  | exited (code : Nat)
  | launchFailure
deriving DecidableEq, Repr

/-- The script-executor oracle: what the synchronous process call does for
a given processed script text and effective environment. -/
def Exec := String → Env → ProcOutcome

/-- JS truthiness of an optional string field: present and non-empty. -/
def strTruthy : Option String → Bool
  | none => false
  | some s => !s.isEmpty

/-- JS `startsWith`, modeled over the character list. -/
def strStartsWith (s pre : String) : Bool := pre.data.isPrefixOf s.data

/-! ## Azure variable substitution

The Azure runner replaces every regex occurrence of a dollar sign, an open
parenthesis, one or more non-close-parenthesis characters, and a close
parenthesis by the bound variable value when the captured name is defined,
and leaves the whole occurrence verbatim otherwise (`replaceVariables` in
the source).  We model the left-to-right global-replace scan over the
character list.  `splitParen l` reads the name part of a candidate token:
the characters before the first close parenthesis and the remainder after
it (`none` when `l` has no close parenthesis, i.e. the token never
completes and no later match is possible either). -/

def splitParen : List Char → List Char × Option (List Char)
  | [] => ([], none)
  | c :: cs =>
    if c = ')' then ([], some cs)
    else ((splitParen cs).1.cons c, (splitParen cs).2)

/-- The global-replace scan, fuel-indexed so that it is structurally
recursive and computes; `replaceVariables` always supplies enough fuel (one
unit per input character) so the fuel-exhausted clause is never reached. -/
def rvFuel (vars : Env) : Nat → List Char → List Char
  | _, [] => []
  | 0, l => l
  | fuel + 1, c :: cs =>
    if c = '$' then
      match cs with
      | [] => ['$']
      | c2 :: cs2 =>
        if c2 = '(' then
          match splitParen cs2 with
          | (name, some rest4) =>
            if name = [] then '$' :: '(' :: ')' :: rvFuel vars fuel rest4
            else
              match vars (String.mk name) with
              | some v => v.data ++ rvFuel vars fuel rest4
              | none => '$' :: '(' :: (name ++ ')' :: rvFuel vars fuel rest4)
          | (_, none) => '$' :: '(' :: cs2
        else '$' :: rvFuel vars fuel (c2 :: cs2)
    else c :: rvFuel vars fuel cs

/-- `AzurePipelineRunner.replaceVariables`: replace every complete
dollar-parenthesis token whose name is bound in `vars` by its value, leave
unbound tokens verbatim. -/
def replaceVariables (vars : Env) (text : String) : String :=
  String.mk (rvFuel vars text.data.length text.data)

/-! ## Azure DevOps runner (`AzurePipelineRunner`)

The pipeline shape and the execution path from `executePipeline` down to
`executeScript`.  Fields the executor never reads (trigger, pr, resources,
pool demands, dependsOn, strategy, timeouts) are omitted; `Option` models
an absent YAML key, and an array-valued key that is present (even empty)
is JS-truthy, hence `Option (List _)`. -/

structure AzureStep where
  task : Option String := none
  displayName : Option String := none
  inputs : List (String × String) := []
  script : Option String := none
  powershell : Option String := none
  bash : Option String := none
  continueOnError : Option Bool := none
  env : List (String × String) := []

structure AzureJob where
  job : Option String := none
  displayName : Option String := none
  vars : List (String × String) := []
  steps : List AzureStep := []

structure AzureStage where
  stage : Option String := none
  displayName : Option String := none
  vars : List (String × String) := []
  jobs : List AzureJob := []

structure AzurePipeline where
  name : Option String := none
  vars : List (String × String) := []
  stages : Option (List AzureStage) := none
  jobs : Option (List AzureJob) := none
  steps : Option (List AzureStep) := none

/-- `initializeVariables`: user variables first, then the synthesized agent
variables (working directory and repository name), which override user
entries of the same name because they are assigned afterwards. -/
def azureInitVariables (workDir repoName : String)
    (varList : List (String × String)) : Env :=
  envMerge (envOfList varList)
    (envOfList [("Build.SourcesDirectory", workDir),
                ("Build.Repository.Name", repoName),
                ("Agent.BuildDirectory", workDir),
                ("System.DefaultWorkingDirectory", workDir)])

/-- `executeTask`: every recognized task prefix is simulated with a log
line and reports success, and so does the catch-all branch. -/
def azureExecuteTask (step : AzureStep) : Bool :=
  let task := step.task.getD ""
  if strStartsWith task "NodeTool@" || task == "NodeTool" then true
  else if strStartsWith task "UsePythonVersion@" || task == "UsePythonVersion" then true
  else if strStartsWith task "PublishBuildArtifacts@" || task == "PublishBuildArtifacts" then true
  else if strStartsWith task "DownloadBuildArtifacts@" || task == "DownloadBuildArtifacts" then true
  else true

/-- The script text chosen by `executeScript`: `script`, else `bash`, else
`powershell` (JS truthiness), else the empty string. -/
def azureScriptText (step : AzureStep) : String :=
  if strTruthy step.script then step.script.getD ""
  else if strTruthy step.bash then step.bash.getD ""
  else if strTruthy step.powershell then step.powershell.getD ""
  else ""

/-- The effective process environment of an Azure script step: the spread
of the ambient process environment, then the step-level env block, then
the pipeline variable map — so a pipeline variable overrides a step-level
binding of the same name. -/
def azureScriptEnv (vars procEnv : Env) (step : AzureStep) : Env :=
  envMerge (envMerge procEnv (envOfList step.env)) vars

/-- `executeScript`: substitute variables into the script text, run it
with the merged environment, return `true` on exit 0; every thrown error
(non-zero exit as well as failure to start the process) is caught by the
same handler which returns `continueOnError || false`. -/
def azureExecuteScript (vars procEnv : Env) (run : Exec) (step : AzureStep) : Bool :=
  let processedScript := replaceVariables vars (azureScriptText step)
  match run processedScript (azureScriptEnv vars procEnv step) with
  | .exited 0 => true
  | .exited (_ + 1) => step.continueOnError.getD false
  | .launchFailure => step.continueOnError.getD false

/-- `executeStep`: dispatch on the step shape — task, else script-like,
else skip (which counts as success). -/
def azureExecuteStep (vars procEnv : Env) (run : Exec) (step : AzureStep) : Bool :=
  if strTruthy step.task then azureExecuteTask step
  else if strTruthy step.script || strTruthy step.bash || strTruthy step.powershell then
    azureExecuteScript vars procEnv run step
  else true

/-- `executeSteps`: run the steps in declaration order, recording each
executed step with its reported result, and return `false` as soon as a
step reports `false` (later steps are not reached). -/
def azureExecuteSteps (vars procEnv : Env) (run : Exec) :
    List AzureStep → List (AzureStep × Bool) × Bool
  | [] => ([], true)
  | s :: rest =>
    if azureExecuteStep vars procEnv run s then
      let p := azureExecuteSteps vars procEnv run rest
      ((s, true) :: p.1, p.2)
    else ([(s, false)], false)

/-- `executeJobs`: run each job's steps, halting at the first failing job.
The per-job `variables` block is never merged — the source only reads
`job.steps`. -/
def azureExecuteJobs (vars procEnv : Env) (run : Exec) : List AzureJob → Bool
  | [] => true
  | j :: rest =>
    if (azureExecuteSteps vars procEnv run j.steps).2 then
      azureExecuteJobs vars procEnv run rest
    else false

/-- `executeStages`: run each stage's jobs, halting at the first failing
stage; stage-level `variables` are likewise never read. -/
def azureExecuteStages (vars procEnv : Env) (run : Exec) : List AzureStage → Bool
  | [] => true
  | st :: rest =>
    if azureExecuteJobs vars procEnv run st.jobs then
      azureExecuteStages vars procEnv run rest
    else false

/-- `executePipeline`: initialize the variable map, then branch on which
root shape is present; when none of `stages`, `jobs`, `steps` is present
the runner only logs a warning and reports success. -/
def azureExecutePipeline (workDir repoName : String) (procEnv : Env) (run : Exec)
    (p : AzurePipeline) : Bool :=
  let vars := azureInitVariables workDir repoName p.vars
  match p.stages with
  | some stages => azureExecuteStages vars procEnv run stages
  | none =>
    match p.jobs with
    | some jobs => azureExecuteJobs vars procEnv run jobs
    | none =>
      match p.steps with
      | some steps => (azureExecuteSteps vars procEnv run steps).2
      | none => true

/-! ## GitHub Actions runner (`GitHubActionsRunner`)

The workflow shape and the execution path from `executeWorkflow` down to
`executeScript`.  The jobs map is an ordered association list; an absent
`jobs` key makes the runner throw while listing the job names, which its
catch block turns into a failed run. -/

structure GitHubStep where
  name : Option String := none
  uses : Option String := none
  run : Option String := none
  withParams : List (String × String) := []
  env : List (String × String) := []
  shell : Option String := none

structure GitHubJob where
  name : Option String := none
  runsOn : String := ""
  env : List (String × String) := []
  steps : List GitHubStep := []

structure GitHubWorkflow where
  name : Option String := none
  env : List (String × String) := []
  jobs : Option (List (String × GitHubJob)) := none

/-- `executeAction`: every recognized action prefix is simulated with a
log line and reports success, and so does the catch-all branch. -/
def githubExecuteAction (step : GitHubStep) : Bool :=
  let action := step.uses.getD ""
  if strStartsWith action "actions/checkout" then true
  else if strStartsWith action "actions/setup-node" then true
  else if strStartsWith action "actions/setup-python" then true
  else true

/-- The step-level environment: the incoming job environment spread first,
then the step's own env block, so step entries override job entries. -/
def githubStepEnv (jobEnv : Env) (step : GitHubStep) : Env :=
  envMerge jobEnv (envOfList step.env)

/-- `executeScript`: run the step's script with the given environment;
exit 0 reports success, and every thrown error (non-zero exit as well as
failure to start the process) is caught and reported as step failure. -/
def githubExecuteScript (run : Exec) (env : Env) (step : GitHubStep) : Bool :=
  match run (step.run.getD "") env with
  | .exited 0 => true
  | .exited (_ + 1) => false
  | .launchFailure => false

/-- `executeStep`: merge the step environment, then dispatch — `uses`
first, else `run`, else skip (which counts as success). -/
def githubExecuteStep (run : Exec) (jobEnv : Env) (step : GitHubStep) : Bool :=
  let stepEnv := githubStepEnv jobEnv step
  if strTruthy step.uses then githubExecuteAction step
  else if strTruthy step.run then githubExecuteScript run stepEnv step
  else true

/-- The job environment: the incoming global environment spread first,
then the job's env block. -/
def githubJobEnv (globalEnv : Env) (job : GitHubJob) : Env :=
  envMerge globalEnv (envOfList job.env)

/-- The step loop of `executeJob`: run the steps in declaration order,
recording each executed step with its result, halting at the first step
that reports `false`. -/
def githubExecuteStepsLoop (run : Exec) (jobEnv : Env) :
    List GitHubStep → List (GitHubStep × Bool) × Bool
  | [] => ([], true)
  | s :: rest =>
    if githubExecuteStep run jobEnv s then
      let p := githubExecuteStepsLoop run jobEnv rest
      ((s, true) :: p.1, p.2)
    else ([(s, false)], false)

/-- `executeJob`: merge the job environment and run the step loop. -/
def githubExecuteJob (run : Exec) (globalEnv : Env) (job : GitHubJob) :
    List (GitHubStep × Bool) × Bool :=
  githubExecuteStepsLoop run (githubJobEnv globalEnv job) job.steps

/-- The job loop of `executeWorkflow`: run the jobs of the ordered jobs
map in declaration order, halting at the first failing job. -/
def githubExecuteJobsLoop (run : Exec) (globalEnv : Env) :
    List (String × GitHubJob) → Bool
  | [] => true
  | (_, job) :: rest =>
    if (githubExecuteJob run globalEnv job).2 then
      githubExecuteJobsLoop run globalEnv rest
    else false

/-- `executeWorkflow`: build the global environment from the ambient
process environment and the workflow env block, then run the jobs in
declaration order, halting at the first failing job.  An absent `jobs` map
throws while its keys are listed; the catch block reports failure. -/
def githubExecuteWorkflow (run : Exec) (procEnv : Env) (wf : GitHubWorkflow) : Bool :=
  let globalEnv := envMerge procEnv (envOfList wf.env)
  match wf.jobs with
  | none => false
  | some jobs => githubExecuteJobsLoop run globalEnv jobs

/-! ## CodeMagic runner (`CodeMagicRunner`)

The workflow shape and the execution path from `executeConfig` down to
`executeScriptContent`.  A `scripts` entry is either a plain string (a
direct command, or a reference when it starts with the reference sigil) or
an inline object with a name and a script body. -/

structure CMScriptStep where
  name : String := ""
  script : String := ""

inductive CMEntry where
  | str (s : String)
  | obj (st : CMScriptStep)

/-- What the script loop records about one entry: a step that ran (with
its reported result) or a reference that was skipped with a warning. -/
inductive CMRecord where
  | ran (label : String) (ok : Bool)
  | skippedRef (ref : String)
deriving DecidableEq, Repr

structure CMWorkflow where
  name : String := ""
  envVars : List (String × String) := []
  envFlutter : Option String := none
  scripts : List CMEntry := []

structure CMConfig where
  workflows : Option (List (String × CMWorkflow)) := none

/-- The workflow environment built by `setupEnvironment` and
`setupMobileEnvironment`: the `environment.vars` seed, then the synthesized
build-directory variables, then the simulated Flutter root when a Flutter
version is declared. -/
def cmWorkflowEnv (workDir : String) (wf : CMWorkflow) : Env :=
  envMerge (envOfList wf.envVars)
    (envOfList ([("CM_BUILD_DIR", workDir),
                 ("CM_BUILD_OUTPUT_DIR", workDir ++ "/build"),
                 ("FCI_BUILD_DIR", workDir)] ++
                (if strTruthy wf.envFlutter then [("FLUTTER_ROOT", "/flutter")] else [])))

/-- `executeScriptContent`: run the script with the ambient process
environment spread first and the workflow environment on top; exit 0
reports success, every thrown error is caught and reported as failure. -/
def cmExecuteScriptContent (cmEnv procEnv : Env) (run : Exec) (content : String) : Bool :=
  match run content (envMerge procEnv cmEnv) with
  | .exited 0 => true
  | .exited (_ + 1) => false
  | .launchFailure => false

/-- `executeScripts`: walk the entries in order.  A string entry starting
with the reference sigil is looked up in the definitions table — when the
lookup fails the entry is skipped with a warning and the loop continues;
every entry that runs and fails stops the loop with an overall `false`. -/
def cmExecuteScripts (defs : String → Option CMScriptStep) (cmEnv procEnv : Env)
    (run : Exec) : List CMEntry → List CMRecord × Bool
  | [] => ([], true)
  | .str s :: rest =>
    if strStartsWith s "*" then
      match defs (s.drop 1) with
      | some d =>
        if cmExecuteScriptContent cmEnv procEnv run d.script then
          let p := cmExecuteScripts defs cmEnv procEnv run rest
          (.ran d.name true :: p.1, p.2)
        else ([.ran d.name false], false)
      | none =>
        let p := cmExecuteScripts defs cmEnv procEnv run rest
        (.skippedRef s :: p.1, p.2)
    else
      if cmExecuteScriptContent cmEnv procEnv run s then
        let p := cmExecuteScripts defs cmEnv procEnv run rest
        (.ran s true :: p.1, p.2)
      else ([.ran s false], false)
  | .obj st :: rest =>
    if cmExecuteScriptContent cmEnv procEnv run st.script then
      let p := cmExecuteScripts defs cmEnv procEnv run rest
      (.ran st.name true :: p.1, p.2)
    else ([.ran st.name false], false)

/-- `executeWorkflow`: set up the environment and run the scripts; the
artifact and publishing phases are simulated logging only, so the result
is the script loop's result. -/
def cmExecuteWorkflow (defs : String → Option CMScriptStep) (workDir : String)
    (procEnv : Env) (run : Exec) (wf : CMWorkflow) : Bool :=
  (cmExecuteScripts defs (cmWorkflowEnv workDir wf) procEnv run wf.scripts).2

/-- `executeConfig`: select a workflow and run it.  An absent `workflows`
map throws while its keys are listed; the catch block reports failure.  A
named target that is not found reports failure.  With no target, more than
one workflow defers to the interactive selector (`select`, a collaborator;
`none` means the selection was aborted, reported as failure), exactly one
runs directly, and zero workflows reports success with a warning. -/
def cmExecuteConfig (select : List String → Option String)
    (defs : String → Option CMScriptStep) (workDir : String) (procEnv : Env)
    (run : Exec) (config : CMConfig) (target : Option String) : Bool :=
  match config.workflows with
  | none => false
  | some wfs =>
    match target with
    | some t =>
      match wfs.find? (fun p => p.1 == t) with
      | none => false
      | some (_, wf) => cmExecuteWorkflow defs workDir procEnv run wf
    | none =>
      if wfs.length > 1 then
        match select (wfs.map (·.1)) with
        | none => false
        | some t =>
          match wfs.find? (fun p => p.1 == t) with
          | none => false
          | some (_, wf) => cmExecuteWorkflow defs workDir procEnv run wf
      else
        match wfs with
        | [] => true
        | (_, wf) :: _ => cmExecuteWorkflow defs workDir procEnv run wf

/-! ## Pipeline-type detector (`PipelineDetector.detectFromFileContent`)

Content-based detection over a decoded YAML document.  Each recognized
top-level key is modeled as `Option Bool`: `none` when the key is absent,
`some b` when it is present with JS truthiness `b` (a present mapping or
non-empty value is truthy; a present `null` or empty string is falsy).
The source tests `trigger` and `pr` for definedness and the other keys for
truthiness. -/

inductive PipelineType where
  | githubActions
  | azureDevops
  | codemagic
  | unknown
deriving DecidableEq, Repr

structure DetectDoc where
  onKey : Option Bool := none
  jobs : Option Bool := none
  trigger : Option Bool := none
  pr : Option Bool := none
  pool : Option Bool := none
  stages : Option Bool := none
  workflows : Option Bool := none
  defsKey : Option Bool := none
  envFlutter : Option Bool := none
  envXcode : Option Bool := none
  envAndroidSigning : Option Bool := none

/-- JS truthiness of a modeled optional key. -/
def keyTruthy (k : Option Bool) : Bool := k.getD false

/-- JS definedness of a modeled optional key. -/
def keyDefined (k : Option Bool) : Bool := k.isSome

/-- `detectFromFileContent`: GitHub indicators first (`on` or `jobs`
truthy), then Azure indicators (`trigger` or `pr` defined, `pool` or
`stages` truthy, or `jobs` truthy without `on` — unreachable after the
first test), then CodeMagic indicators, else unknown. -/
def detectFromFileContent (d : DetectDoc) : PipelineType :=
  if keyTruthy d.onKey || keyTruthy d.jobs then .githubActions
  else if keyDefined d.trigger || keyDefined d.pr || keyTruthy d.pool ||
      keyTruthy d.stages || (keyTruthy d.jobs && !keyTruthy d.onKey) then .azureDevops
  else if keyTruthy d.workflows || keyTruthy d.defsKey || keyTruthy d.envFlutter ||
      keyTruthy d.envXcode || keyTruthy d.envAndroidSigning then .codemagic
  else .unknown

/-! ## Concrete fixtures

Small concrete steps and executor oracles used to instantiate the claim
theorems: scripts named "a" and "c" succeed, the script named "b" fails
(with a non-zero exit under `run0`, or because its interpreter cannot be
started under `runLaunchFail`). -/

def stepA : AzureStep := { script := some "a" }

def stepB : AzureStep := { script := some "b", continueOnError := some true }

def stepBhard : AzureStep := { script := some "b" }

def stepC : AzureStep := { script := some "c" }

def gstepA : GitHubStep := { run := some "a" }

def gstepB : GitHubStep := { run := some "b" }

def gstepC : GitHubStep := { run := some "c" }

def run0 : Exec := fun s _ => if s = "b" then .exited 1 else .exited 0

def runLaunchFail : Exec := fun s _ => if s = "b" then .launchFailure else .exited 0

/-! ## Helper lemmas -/

/-- Merging anything on top of an environment keeps every key of the
lower layer bound (possibly to an overridden value). -/
theorem envMerge_preserves_left {a : Env} {k v : String} (b : Env)
    (h : a k = some v) : ∃ w, envMerge a b k = some w := by
  unfold envMerge
  cases hb : b k with
  | none => exact ⟨v, h⟩
  | some w => exact ⟨w, rfl⟩

theorem splitParen_length {l n r : List Char} (h : splitParen l = (n, some r)) :
    r.length < l.length := by
  induction l generalizing n r with
  | nil => simp [splitParen] at h
  | cons c cs ih =>
    by_cases hc : c = ')'
    · simp only [splitParen, if_pos hc] at h
      obtain ⟨-, h2⟩ := Prod.mk.injEq .. ▸ h
      obtain rfl : cs = r := Option.some.injEq .. ▸ h2
      simp
    · simp only [splitParen, if_neg hc] at h
      obtain ⟨-, h2⟩ := Prod.mk.injEq .. ▸ h
      rcases hsp : splitParen cs with ⟨n', o⟩
      rw [hsp] at h2
      cases o with
      | none => simp at h2
      | some r' =>
        obtain rfl : r' = r := Option.some.injEq .. ▸ h2
        exact Nat.lt_succ_of_lt (ih hsp)

theorem splitParen_append {name rest : List Char} (h : ∀ c ∈ name, c ≠ ')') :
    splitParen (name ++ ')' :: rest) = (name, some rest) := by
  induction name with
  | nil => simp [splitParen]
  | cons c cs ih =>
    have hc : c ≠ ')' := h c (List.mem_cons_self ..)
    have ih' := ih (fun d hd => h d (List.mem_cons_of_mem _ hd))
    simp only [List.cons_append, splitParen, if_neg hc, List.append_eq, ih']

/-- The scan does not depend on the fuel as long as there is at least one
unit of fuel per input character. -/
theorem rvFuel_congr (vars : Env) :
    ∀ (f₁ : Nat) (l : List Char) (f₂ : Nat), l.length ≤ f₁ → l.length ≤ f₂ →
      rvFuel vars f₁ l = rvFuel vars f₂ l := by
  intro f₁
  induction f₁ with
  | zero =>
    intro l f₂ h1 _
    have hl : l = [] := List.eq_nil_of_length_eq_zero (Nat.le_zero.mp h1)
    subst hl
    cases f₂ <;> simp [rvFuel]
  | succ g ih =>
    intro l f₂ h1 h2
    cases l with
    | nil => cases f₂ <;> simp [rvFuel]
    | cons c cs =>
      cases f₂ with
      | zero => simp at h2
      | succ g' =>
        simp only [List.length_cons, Nat.succ_le_succ_iff] at h1 h2
        simp only [rvFuel]
        by_cases hc : c = '$'
        · simp only [if_pos hc]
          cases cs with
          | nil => rfl
          | cons c2 cs2 =>
            simp only [List.length_cons] at h1 h2
            by_cases hc2 : c2 = '('
            · simp only [if_pos hc2]
              rcases hsp : splitParen cs2 with ⟨name, o⟩
              cases o with
              | none => simp
              | some rest4 =>
                have hlen : rest4.length < cs2.length := splitParen_length hsp
                simp only
                by_cases hn : name = []
                · simp only [if_pos hn]
                  rw [ih rest4 g' (by omega) (by omega)]
                · simp only [if_neg hn]
                  rcases hv : vars (String.mk name) with - | v
                  · simp only
                    rw [ih rest4 g' (by omega) (by omega)]
                  · simp only
                    rw [ih rest4 g' (by omega) (by omega)]
            · simp only [if_neg hc2]
              rw [ih (c2 :: cs2) g' (by simp; omega) (by simp; omega)]
        · simp only [if_neg hc]
          rw [ih cs g' h1 h2]

/-- Scanning a complete token at the head of the input: the token is
replaced by the bound value (not rescanned) when the name is bound, kept
verbatim when it is not, and the scan continues after the token either
way. -/
theorem rvFuel_token (vars : Env) (name suf : List Char) (f : Nat)
    (hname : name ≠ []) (hnp : ∀ c ∈ name, c ≠ ')')
    (hf : name.length + suf.length + 3 ≤ f) :
    rvFuel vars f ('$' :: '(' :: (name ++ ')' :: suf)) =
      (match vars (String.mk name) with
       | some v => v.data ++ rvFuel vars suf.length suf
       | none => '$' :: '(' :: (name ++ ')' :: rvFuel vars suf.length suf)) := by
  cases f with
  | zero => omega
  | succ f' =>
    simp only [rvFuel, if_pos rfl, splitParen_append hnp, if_neg hname]
    rcases hv : vars (String.mk name) with - | v
    · rw [rvFuel_congr vars f' suf suf.length (by omega) (by omega)]
      simp
    · rw [rvFuel_congr vars f' suf suf.length (by omega) (by omega)]
      simp

/-- Scanning a dollar-free prefix copies it verbatim and continues with
the rest of the input. -/
theorem rvFuel_preCopy (vars : Env) (pre rest : List Char)
    (hpre : ∀ c ∈ pre, c ≠ '$') :
    ∀ f : Nat, pre.length + rest.length ≤ f →
      rvFuel vars f (pre ++ rest) = pre ++ rvFuel vars rest.length rest := by
  induction pre with
  | nil =>
    intro f hf
    simpa using rvFuel_congr vars f rest rest.length (by simpa using hf) (by omega)
  | cons c cs ih =>
    intro f hf
    cases f with
    | zero => simp at hf
    | succ f' =>
      have hc : c ≠ '$' := hpre c (List.mem_cons_self ..)
      simp only [List.cons_append, rvFuel, if_neg hc, List.append_eq]
      rw [ih (fun d hd => hpre d (List.mem_cons_of_mem _ hd)) f'
        (by simp at hf ⊢; omega)]

theorem string_data_append (s t : String) : (s ++ t).data = s.data ++ t.data := by
  cases s
  cases t
  rfl

theorem string_eq_of_data {s t : String} (h : s.data = t.data) : s = t := by
  cases s
  cases t
  cases h
  rfl

/-! ## Claim theorems -/

/-- C1 counterexample: in the Azure runner, a unit `[A ok, B fails with
continueOnError, C ok]` does not end with `succeeded = false` as the claim
states — the failing step is recorded as succeeded and the unit's overall
result is `true`. -/
theorem azure_continueOnError_counterexample :
    (azureExecuteSteps emptyEnv emptyEnv run0 [stepA, stepB, stepC]).2 = true ∧
    ¬ (azureExecuteSteps emptyEnv emptyEnv run0 [stepA, stepB, stepC]).2 = false := by
  exact ⟨rfl, by decide⟩

/-- C1 (amended): for an Azure leaf unit `[A, B, C]` where `A` and `C`
succeed and `B` is a script step that exits non-zero with `continueOnError`
set, traversal continues through the following steps — but the failing
step is recorded as succeeded (its failure is only logged) and the unit's
overall result is `true`, not `false`. -/
theorem azure_continueOnError_continues_and_reports_success
    (vars procEnv : Env) (run : Exec) (A B C : AzureStep)
    (hA : azureExecuteStep vars procEnv run A = true)
    (hBtask : strTruthy B.task = false)
    (hBscript : strTruthy B.script = true)
    (hBcoe : B.continueOnError = some true)
    (hBfail : ∃ n, run (replaceVariables vars (azureScriptText B))
        (azureScriptEnv vars procEnv B) = .exited (n + 1))
    (hC : azureExecuteStep vars procEnv run C = true) :
    azureExecuteSteps vars procEnv run [A, B, C] =
      ([(A, true), (B, true), (C, true)], true) := by
  obtain ⟨n, hn⟩ := hBfail
  have hB : azureExecuteStep vars procEnv run B = true := by
    simp only [azureExecuteStep, azureExecuteScript, hBtask, hBscript]
    simp [hn, hBcoe]
  simp [azureExecuteSteps, hA, hB, hC]

/-- C1 witness: the amended statement at the concrete fixture unit. -/
theorem azure_continueOnError_witness :
    azureExecuteSteps emptyEnv emptyEnv run0 [stepA, stepB, stepA] =
      ([(stepA, true), (stepB, true), (stepA, true)], true) :=
  azure_continueOnError_continues_and_reports_success emptyEnv emptyEnv run0
    stepA stepB stepA rfl rfl rfl rfl ⟨0, rfl⟩ rfl

/-- C4: in all three vendor runners, a leaf unit `[A, B, C]` where `A`
succeeds and `B` is a script step that exits non-zero without
`continueOnError` records exactly `A` (succeeded) and `B` (failed), never
executes `C`, and reports the unit as failed. -/
theorem failing_step_halts_unit :
    (∀ (vars procEnv : Env) (run : Exec) (A B C : AzureStep),
      azureExecuteStep vars procEnv run A = true →
      strTruthy B.task = false →
      strTruthy B.script = true →
      B.continueOnError.getD false = false →
      (∃ n, run (replaceVariables vars (azureScriptText B))
          (azureScriptEnv vars procEnv B) = .exited (n + 1)) →
      azureExecuteSteps vars procEnv run [A, B, C] = ([(A, true), (B, false)], false)) ∧
    (∀ (run : Exec) (jobEnv : Env) (A B C : GitHubStep),
      githubExecuteStep run jobEnv A = true →
      strTruthy B.uses = false →
      strTruthy B.run = true →
      (∃ n, run (B.run.getD "") (githubStepEnv jobEnv B) = .exited (n + 1)) →
      githubExecuteStepsLoop run jobEnv [A, B, C] = ([(A, true), (B, false)], false)) ∧
    (∀ (defs : String → Option CMScriptStep) (cmEnv procEnv : Env) (run : Exec)
      (a b c : String),
      cmExecuteScriptContent cmEnv procEnv run a = true →
      strStartsWith a "*" = false →
      strStartsWith b "*" = false →
      (∃ n, run b (envMerge procEnv cmEnv) = .exited (n + 1)) →
      cmExecuteScripts defs cmEnv procEnv run [.str a, .str b, .str c] =
        ([.ran a true, .ran b false], false)) := by
  refine ⟨?_, ?_, ?_⟩
  · intro vars procEnv run A B C hA hBtask hBscript hBcoe hBfail
    obtain ⟨n, hn⟩ := hBfail
    have hB : azureExecuteStep vars procEnv run B = false := by
      simp only [azureExecuteStep, azureExecuteScript, hBtask, hBscript]
      simp [hn, hBcoe]
    simp [azureExecuteSteps, hA, hB]
  · intro run jobEnv A B C hA hBuses hBrun hBfail
    obtain ⟨n, hn⟩ := hBfail
    have hB : githubExecuteStep run jobEnv B = false := by
      simp only [githubExecuteStep, githubExecuteScript, hBuses, hBrun]
      simp [hn]
    simp [githubExecuteStepsLoop, hA, hB]
  · intro defs cmEnv procEnv run a b c ha hastar hbstar hbfail
    obtain ⟨n, hn⟩ := hbfail
    have hb : cmExecuteScriptContent cmEnv procEnv run b = false := by
      simp [cmExecuteScriptContent, hn]
    simp [cmExecuteScripts, hastar, hbstar, ha, hb]

/-- C4 witness: the statement at concrete fixture units of each runner. -/
theorem failing_step_halts_unit_witness :
    azureExecuteSteps emptyEnv emptyEnv run0 [stepA, stepBhard, stepC] =
      ([(stepA, true), (stepBhard, false)], false) ∧
    githubExecuteStepsLoop run0 emptyEnv [gstepA, gstepB, gstepC] =
      ([(gstepA, true), (gstepB, false)], false) ∧
    cmExecuteScripts (fun _ => none) emptyEnv emptyEnv run0
      [.str "a", .str "b", .str "c"] = ([.ran "a" true, .ran "b" false], false) :=
  ⟨failing_step_halts_unit.1 emptyEnv emptyEnv run0 stepA stepBhard stepC
      rfl rfl rfl rfl ⟨0, rfl⟩,
   failing_step_halts_unit.2.1 run0 emptyEnv gstepA gstepB gstepC
      rfl rfl rfl ⟨0, rfl⟩,
   failing_step_halts_unit.2.2 (fun _ => none) emptyEnv emptyEnv run0 "a" "b" "c"
      rfl rfl rfl ⟨0, rfl⟩⟩

/-- C5: a CodeMagic scripts entry that is a reference (sigil-prefixed
string) whose name is not in the definitions table is skipped with a
warning record, the remaining entries are still processed, and the overall
result is whatever the remaining entries produce. -/
theorem cm_unknown_reference_skipped
    (defs : String → Option CMScriptStep) (cmEnv procEnv : Env) (run : Exec)
    (s : String) (rest : List CMEntry)
    (hs : strStartsWith s "*" = true)
    (hd : defs (s.drop 1) = none) :
    cmExecuteScripts defs cmEnv procEnv run (.str s :: rest) =
      (.skippedRef s :: (cmExecuteScripts defs cmEnv procEnv run rest).1,
       (cmExecuteScripts defs cmEnv procEnv run rest).2) := by
  simp [cmExecuteScripts, hs, hd]

/-- C5 witness: the statement at a concrete unresolved reference followed
by a live step. -/
theorem cm_unknown_reference_skipped_witness :
    cmExecuteScripts (fun _ => none) emptyEnv emptyEnv run0
        [.str "*missing", .str "c"] =
      (.skippedRef "*missing" ::
        (cmExecuteScripts (fun _ => none) emptyEnv emptyEnv run0 [.str "c"]).1,
       (cmExecuteScripts (fun _ => none) emptyEnv emptyEnv run0 [.str "c"]).2) :=
  cm_unknown_reference_skipped (fun _ => none) emptyEnv emptyEnv run0
    "*missing" [.str "c"] rfl rfl

/-- C2 counterexample: in the Azure runner a variable defined at pipeline
level and overridden at step level resolves to the pipeline-level value,
not the step-level one, because the variable map is spread after the step
env block. -/
theorem env_layering_counterexample :
    azureScriptEnv (envOfList [("FOO", "wf")]) emptyEnv
      { script := some "echo", env := [("FOO", "step")] } "FOO" = some "wf" ∧
    ("wf" : String) ≠ "step" := by
  exact ⟨rfl, by decide⟩

/-- C2 (amended): the GitHub runner layers process, workflow, job and step
environments with later layers overriding earlier keys (step over job over
workflow, and a sibling step without an override reverts to the workflow
value); the Azure runner instead spreads process, then step env, then the
pipeline variable map, so a pipeline-level variable overrides a step-level
binding of the same name. -/
theorem env_layering_amended :
    (∀ (procEnv : Env) (wfL : List (String × String)) (job : GitHubJob)
      (step : GitHubStep) (k v : String),
      envOfList step.env k = some v →
      githubStepEnv (githubJobEnv (envMerge procEnv (envOfList wfL)) job) step k = some v) ∧
    (∀ (procEnv : Env) (wfL : List (String × String)) (job : GitHubJob)
      (step : GitHubStep) (k v : String),
      envOfList step.env k = none → envOfList job.env k = none →
      envOfList wfL k = some v →
      githubStepEnv (githubJobEnv (envMerge procEnv (envOfList wfL)) job) step k = some v) ∧
    (∀ (vars procEnv : Env) (step : AzureStep) (k v : String),
      vars k = some v → azureScriptEnv vars procEnv step k = some v) := by
  refine ⟨?_, ?_, ?_⟩
  · intro procEnv wfL job step k v h
    simp [githubStepEnv, githubJobEnv, envMerge, h]
  · intro procEnv wfL job step k v h1 h2 h3
    simp [githubStepEnv, githubJobEnv, envMerge, h1, h2, h3]
  · intro vars procEnv step k v h
    simp [azureScriptEnv, envMerge, h]

/-- C2 witness: the amended statement at a concrete workflow-level `FOO`
overridden (GitHub) or shadowed (Azure) at step level. -/
theorem env_layering_witness :
    githubStepEnv (githubJobEnv (envMerge emptyEnv (envOfList [("FOO", "wf")]))
      { env := [] }) { env := [("FOO", "step")] } "FOO" = some "step" ∧
    githubStepEnv (githubJobEnv (envMerge emptyEnv (envOfList [("FOO", "wf")]))
      { env := [] }) { env := [] } "FOO" = some "wf" ∧
    azureScriptEnv (envOfList [("FOO", "wf")]) emptyEnv
      { env := [("FOO", "step")] } "FOO" = some "wf" :=
  ⟨env_layering_amended.1 emptyEnv [("FOO", "wf")] { env := [] }
      { env := [("FOO", "step")] } "FOO" "step" rfl,
   env_layering_amended.2.1 emptyEnv [("FOO", "wf")] { env := [] }
      { env := [] } "FOO" "wf" rfl rfl rfl,
   env_layering_amended.2.2 (envOfList [("FOO", "wf")]) emptyEnv
      { env := [("FOO", "step")] } "FOO" "wf" rfl⟩

/-- C3 counterexample: an Azure pipeline document with none of `stages`,
`jobs` or `steps` does not fail — the runner warns and reports success. -/
theorem azure_empty_pipeline_counterexample :
    azureExecutePipeline "/repo" "repo" emptyEnv run0 {} = true := rfl

/-- C3 (amended): with no recognized top-level field, the GitHub runner
(no `jobs`) and the CodeMagic runner (no `workflows`) report the run as
failed (a thrown lookup error caught by the runner, not a typed schema
error), while the Azure runner (no `stages`, `jobs` or `steps`) logs a
warning and reports the run as successful. -/
theorem missing_root_fields_amended :
    (∀ (workDir repoName : String) (procEnv : Env) (run : Exec)
      (nm : Option String) (vl : List (String × String)),
      azureExecutePipeline workDir repoName procEnv run
        { name := nm, vars := vl } = true) ∧
    (∀ (run : Exec) (procEnv : Env) (nm : Option String)
      (el : List (String × String)),
      githubExecuteWorkflow run procEnv { name := nm, env := el, jobs := none } = false) ∧
    (∀ (select : List String → Option String) (defs : String → Option CMScriptStep)
      (workDir : String) (procEnv : Env) (run : Exec) (target : Option String),
      cmExecuteConfig select defs workDir procEnv run { workflows := none } target = false) :=
  ⟨fun _ _ _ _ _ _ => rfl, fun _ _ _ _ => rfl, fun _ _ _ _ _ _ => rfl⟩

/-- C7 counterexample: a process that cannot be started does not abort the
run as an engine-level error — in the Azure runner it is even absorbed by
`continueOnError` and the unit completes successfully, and in the GitHub
runner it is returned as an ordinary failed-step result. -/
theorem process_launch_counterexample :
    azureExecuteSteps emptyEnv emptyEnv runLaunchFail [stepA, stepB, stepC] =
      ([(stepA, true), (stepB, true), (stepC, true)], true) ∧
    githubExecuteScript runLaunchFail emptyEnv gstepB = false := ⟨rfl, rfl⟩

/-- C7 (amended): a child process that runs and exits non-zero does not
raise — it is an ordinary failed-step result; and a process that could not
be started at all is handled by the very same catch block and yields
exactly the same step result, rather than a distinguished engine-level
error. -/
theorem launch_failure_is_ordinary_step_failure :
    (∀ (vars procEnv : Env) (step : AzureStep),
      azureExecuteScript vars procEnv (fun _ _ => .launchFailure) step =
        azureExecuteScript vars procEnv (fun _ _ => .exited 1) step) ∧
    (∀ (env : Env) (step : GitHubStep),
      githubExecuteScript (fun _ _ => .launchFailure) env step = false ∧
      githubExecuteScript (fun _ _ => .exited 1) env step = false) ∧
    (∀ (cmEnv procEnv : Env) (content : String),
      cmExecuteScriptContent cmEnv procEnv (fun _ _ => .launchFailure) content = false ∧
      cmExecuteScriptContent cmEnv procEnv (fun _ _ => .exited 1) content = false) :=
  ⟨fun _ _ _ => rfl, fun _ _ => ⟨rfl, rfl⟩, fun _ _ _ => ⟨rfl, rfl⟩⟩

/-- C8: every ambient process-environment variable remains bound (possibly
overridden) in the effective environment each runner passes to a script
step. -/
theorem ambient_env_preserved (procEnv : Env) (k v : String)
    (h : procEnv k = some v) :
    (∀ (wfL : List (String × String)) (job : GitHubJob) (step : GitHubStep),
      ∃ w, githubStepEnv (githubJobEnv (envMerge procEnv (envOfList wfL)) job)
        step k = some w) ∧
    (∀ (vars : Env) (step : AzureStep),
      ∃ w, azureScriptEnv vars procEnv step k = some w) ∧
    (∀ cmEnv : Env, ∃ w, envMerge procEnv cmEnv k = some w) := by
  refine ⟨?_, ?_, ?_⟩
  · intro wfL job step
    obtain ⟨w1, h1⟩ := envMerge_preserves_left (envOfList wfL) h
    obtain ⟨w2, h2⟩ := envMerge_preserves_left (envOfList job.env) h1
    exact envMerge_preserves_left (envOfList step.env) h2
  · intro vars step
    obtain ⟨w1, h1⟩ := envMerge_preserves_left (envOfList step.env) h
    exact envMerge_preserves_left vars h1
  · intro cmEnv
    exact envMerge_preserves_left cmEnv h

/-- C8 witness: the statement at a concrete one-variable ambient
environment for each runner. -/
theorem ambient_env_preserved_witness :
    (∃ w, githubStepEnv (githubJobEnv (envMerge (envOfList [("HOME", "/root")])
      (envOfList [])) { env := [] }) { env := [] } "HOME" = some w) ∧
    (∃ w, azureScriptEnv emptyEnv (envOfList [("HOME", "/root")]) {} "HOME" = some w) ∧
    (∃ w, envMerge (envOfList [("HOME", "/root")]) emptyEnv "HOME" = some w) :=
  ⟨(ambient_env_preserved (envOfList [("HOME", "/root")]) "HOME" "/root" rfl).1
      [] { env := [] } { env := [] },
   (ambient_env_preserved (envOfList [("HOME", "/root")]) "HOME" "/root" rfl).2.1
      emptyEnv {},
   (ambient_env_preserved (envOfList [("HOME", "/root")]) "HOME" "/root" rfl).2.2
      emptyEnv⟩

/-- C9 counterexample: a document with `jobs` but no `on` (and no Azure
indicator) is detected as GitHub Actions, not Azure as the claim states,
because the GitHub test fires on `on` or `jobs`. -/
theorem detect_jobs_without_on_counterexample :
    detectFromFileContent { jobs := some true } = PipelineType.githubActions ∧
    detectFromFileContent { jobs := some true } ≠ PipelineType.azureDevops := by
  exact ⟨rfl, by decide⟩

/-- C9 (amended): content detection returns GitHub whenever `on` or `jobs`
is truthy (in particular for `jobs` without `on`, and for `on` without
`jobs`); Azure when neither is truthy and `trigger` or `pr` is defined or
`pool` or `stages` is truthy; CodeMagic when additionally no Azure
indicator is present and `workflows`, `definitions` or a
mobile-environment key is truthy. -/
theorem detect_content_amended :
    (∀ d : DetectDoc, keyTruthy d.onKey = true ∨ keyTruthy d.jobs = true →
      detectFromFileContent d = PipelineType.githubActions) ∧
    (∀ d : DetectDoc, keyTruthy d.onKey = false → keyTruthy d.jobs = false →
      (keyDefined d.trigger = true ∨ keyDefined d.pr = true ∨
        keyTruthy d.pool = true ∨ keyTruthy d.stages = true) →
      detectFromFileContent d = PipelineType.azureDevops) ∧
    (∀ d : DetectDoc, keyTruthy d.onKey = false → keyTruthy d.jobs = false →
      keyDefined d.trigger = false → keyDefined d.pr = false →
      keyTruthy d.pool = false → keyTruthy d.stages = false →
      (keyTruthy d.workflows = true ∨ keyTruthy d.defsKey = true ∨
        keyTruthy d.envFlutter = true ∨ keyTruthy d.envXcode = true ∨
        keyTruthy d.envAndroidSigning = true) →
      detectFromFileContent d = PipelineType.codemagic) := by
  refine ⟨?_, ?_, ?_⟩
  · intro d h
    rcases h with h | h <;> simp [detectFromFileContent, h]
  · intro d h1 h2 h3
    rcases h3 with h3 | h3 | h3 | h3 <;> simp [detectFromFileContent, h1, h2, h3]
  · intro d h1 h2 h3 h4 h5 h6 h7
    rcases h7 with h | h | h | h | h <;>
      simp [detectFromFileContent, h1, h2, h3, h4, h5, h6, h]

/-- C9 witness: the amended statement at concrete one-key documents,
covering `on` alone, `jobs` alone, a defined `trigger`, a defined `pr`,
and a truthy `workflows`. -/
theorem detect_content_witness :
    detectFromFileContent { onKey := some true } = PipelineType.githubActions ∧
    detectFromFileContent { jobs := some true } = PipelineType.githubActions ∧
    detectFromFileContent { trigger := some true } = PipelineType.azureDevops ∧
    detectFromFileContent { pr := some true } = PipelineType.azureDevops ∧
    detectFromFileContent { workflows := some true } = PipelineType.codemagic :=
  ⟨detect_content_amended.1 { onKey := some true } (Or.inl rfl),
   detect_content_amended.1 { jobs := some true } (Or.inr rfl),
   detect_content_amended.2.1 { trigger := some true } rfl rfl (Or.inl rfl),
   detect_content_amended.2.1 { pr := some true } rfl rfl (Or.inr (Or.inl rfl)),
   detect_content_amended.2.2 { workflows := some true } rfl rfl rfl rfl rfl rfl
      (Or.inl rfl)⟩

/-- C10: a platform-action step — a GitHub step with a truthy `uses` or an
Azure step with a truthy `task` — always reports success, whatever the
action identifier, parameters or executor behaviour. -/
theorem platform_actions_always_succeed :
    (∀ (run : Exec) (jobEnv : Env) (step : GitHubStep),
      strTruthy step.uses = true → githubExecuteStep run jobEnv step = true) ∧
    (∀ (vars procEnv : Env) (run : Exec) (step : AzureStep),
      strTruthy step.task = true → azureExecuteStep vars procEnv run step = true) := by
  constructor
  · intro run jobEnv step h
    simp [githubExecuteStep, h, githubExecuteAction]
  · intro vars procEnv run step h
    simp [azureExecuteStep, h, azureExecuteTask]

/-- C6: Azure variable substitution. In a script text made of a
dollar-free prefix, a complete `$(Name)` token and an arbitrary remainder,
the token is replaced by the bound value when `Name` is bound in the
resolved variable set and kept verbatim when it is not, and the remainder
is substituted the same way (replacement values are not rescanned). -/
theorem azure_replaceVariables_spec (vars : Env) (pre name suf : String)
    (hname : name ≠ "") (hnp : ∀ c ∈ name.data, c ≠ ')')
    (hpre : ∀ c ∈ pre.data, c ≠ '$') :
    replaceVariables vars (pre ++ "$(" ++ name ++ ")" ++ suf) =
      pre ++ (match vars name with
              | some v => v
              | none => "$(" ++ name ++ ")") ++ replaceVariables vars suf := by
  have hname' : name.data ≠ [] := by
    intro h
    exact hname (by cases name; cases h; rfl)
  have h1 : "$(".data = ['$', '('] := rfl
  have h2 : ")".data = [')'] := rfl
  have hdata : (pre ++ "$(" ++ name ++ ")" ++ suf).data
      = pre.data ++ ('$' :: '(' :: (name.data ++ ')' :: suf.data)) := by
    simp [string_data_append, h1, h2, List.append_assoc]
  unfold replaceVariables
  rw [hdata]
  rw [rvFuel_preCopy vars pre.data ('$' :: '(' :: (name.data ++ ')' :: suf.data)) hpre
    (pre.data ++ ('$' :: '(' :: (name.data ++ ')' :: suf.data))).length (by simp)]
  rw [rvFuel_token vars name.data suf.data
    ('$' :: '(' :: (name.data ++ ')' :: suf.data)).length hname' hnp (by simp; omega)]
  rw [show String.mk name.data = name from rfl]
  rcases hv : vars name with - | v
  · simp only [hv]
    apply string_eq_of_data
    simp [string_data_append, h1, h2, List.append_assoc]
  · simp only [hv]
    apply string_eq_of_data
    simp [string_data_append, List.append_assoc]

/-- C6 witness: the statement at the concrete bound example (a script
`echo $(Foo)` with `Foo=bar`) and the concrete unbound example
(`$(Missing)`), plus their end-to-end evaluations. -/
theorem azure_replaceVariables_witness :
    (replaceVariables (envOfList [("Foo", "bar")]) ("echo " ++ "$(" ++ "Foo" ++ ")" ++ "") =
      "echo " ++ (match envOfList [("Foo", "bar")] "Foo" with
                  | some v => v
                  | none => "$(" ++ "Foo" ++ ")") ++
        replaceVariables (envOfList [("Foo", "bar")]) "") ∧
    (replaceVariables (envOfList [("Foo", "bar")]) ("" ++ "$(" ++ "Missing" ++ ")" ++ "") =
      "" ++ (match envOfList [("Foo", "bar")] "Missing" with
             | some v => v
             | none => "$(" ++ "Missing" ++ ")") ++
        replaceVariables (envOfList [("Foo", "bar")]) "") ∧
    replaceVariables (envOfList [("Foo", "bar")]) "echo $(Foo)" = "echo bar" ∧
    replaceVariables (envOfList [("Foo", "bar")]) "$(Missing)" = "$(Missing)" :=
  ⟨azure_replaceVariables_spec (envOfList [("Foo", "bar")]) "echo " "Foo" ""
      (by decide) (by decide) (by decide),
   azure_replaceVariables_spec (envOfList [("Foo", "bar")]) "" "Missing" ""
      (by decide) (by decide) (by decide),
   by decide, by decide⟩

/-- C10 witness: the statement at a concrete checkout action and a
concrete NodeTool task. -/
theorem platform_actions_witness :
    githubExecuteStep run0 emptyEnv { uses := some "actions/checkout@v4" } = true ∧
    azureExecuteStep emptyEnv emptyEnv run0 { task := some "NodeTool@0" } = true :=
  ⟨platform_actions_always_succeed.1 run0 emptyEnv
      { uses := some "actions/checkout@v4" } rfl,
   platform_actions_always_succeed.2 emptyEnv emptyEnv run0
      { task := some "NodeTool@0" } rfl⟩

end LocalPipeline
